import Mathlib

/-!
Verification of the core simulation engine of a terminal arcade shooter
(player ship vs. enemy formations): a shallow embedding of the entity
records, their per-tick transition functions, the formation movement
policy, the spawn director and the collision resolver, followed by
theorems about the claims of the specification.

Machine integers from the source (`u8`, `u16`, `i16`) are modelled as
`Nat`/`Int`; explicitly wrapping operations (`wrapping_add`, `as` casts)
carry an explicit modulus, saturating subtraction is `Nat` truncated
subtraction, and the `as i16` / `as u16` reinterpretation casts are the
`toI16` / `i16ToU16` helpers below.
-/

namespace Galagia

/-- Wrapping `u8` arithmetic (`wrapping_add` in the source). -/
def u8Mod (n : Nat) : Nat := n % 256

/-- Wrapping `u16` arithmetic. -/
def u16Mod (n : Nat) : Nat := n % 65536

/-- Reinterpret a `u16` value as Rust's `as i16` cast does (two's complement). -/
def toI16 (n : Nat) : Int :=
  if n % 65536 < 32768 then (n % 65536 : Int) else (n % 65536 : Int) - 65536

/-- Rust's `as u16` cast applied to an `i16`-range value. -/
def i16ToU16 (z : Int) : Nat := (z % 65536).toNat

/-! ## Entity records (src/entities/enemy.rs, player.rs, projectile.rs,
particle.rs, pickup.rs, formation.rs) -/

inductive EnemyType where
  | Basic
  | Fast
  | Tank
deriving DecidableEq

structure Enemy where
  x : Nat
  y : Nat
  health : Nat
  enemyType : EnemyType
  fireCooldown : Nat
  formationId : Option Nat
  offsetX : Int
  offsetY : Int
  damageFlashFrames : Nat
deriving DecidableEq

def Enemy.newInFormation (x y : Nat) (enemyType : EnemyType) (formationId : Nat)
    (offset : Int × Int) : Enemy :=
  let health := match enemyType with
    | .Basic => 15
    | .Fast => 10
    | .Tank => 30
  ⟨x, y, health, enemyType, 0, some formationId, offset.1, offset.2, 0⟩

def Enemy.getWidth (e : Enemy) : Nat :=
  match e.enemyType with
  | .Basic => 7
  | .Fast => 8
  | .Tank => 8

def Enemy.getHeight (e : Enemy) : Nat :=
  match e.enemyType with
  | .Basic => 3
  | .Fast => 5
  | .Tank => 5

def Enemy.getPoints (e : Enemy) : Nat :=
  match e.enemyType with
  | .Basic => 10
  | .Fast => 20
  | .Tank => 30

/-- Rust `Enemy::update`: decrement the damage flash, then either just advance the
cooldown (formation-bound) or additionally descend on the per-type cadence. -/
def Enemy.update (e : Enemy) : Enemy :=
  let e :=
    if e.damageFlashFrames > 0 then { e with damageFlashFrames := e.damageFlashFrames - 1 } else e
  if e.formationId.isSome then
    { e with fireCooldown := u8Mod (e.fireCooldown + 1) }
  else
    -- speed is 1 for every type in the source
    let moveInterval := match e.enemyType with
      | .Basic => 8
      | .Fast => 5
      | .Tank => 10
    let e := if e.fireCooldown % moveInterval = 0 then { e with y := u16Mod (e.y + 1) } else e
    { e with fireCooldown := u8Mod (e.fireCooldown + 1) }

/-- Rust `Enemy::update_formation_position`: re-derive the absolute position from
the formation center; a coordinate is written only when `center + offset`
is non-negative. -/
def Enemy.updateFormationPosition (e : Enemy) (centerX centerY : Nat) : Enemy :=
  let newX := toI16 centerX + e.offsetX
  let newY := toI16 centerY + e.offsetY
  let e1 := if 0 ≤ newX then { e with x := i16ToU16 newX } else e
  if 0 ≤ newY then { e1 with y := i16ToU16 newY } else e1

def Enemy.canFire (e : Enemy) : Bool := e.fireCooldown % 120 = 0

/-- Rust `Enemy::take_damage` (saturating subtraction on `u8` health). -/
def Enemy.takeDamage (e : Enemy) (damage : Nat) : Enemy :=
  { e with health := e.health - damage, damageFlashFrames := 10 }

def Enemy.isAlive (e : Enemy) : Bool := 0 < e.health

inductive WeaponType where
  | BasicGun
  | Sword
  | Bug
  | Bomber
deriving DecidableEq

structure Player where
  x : Nat
  y : Nat
  health : Nat
  fireCooldown : Nat
  currentWeapon : WeaponType
  damageFlashFrames : Nat
deriving DecidableEq

def Player.new (x y : Nat) : Player := ⟨x, y, 100, 0, .BasicGun, 0⟩

def Player.getWidth (_ : Player) : Nat := 5

def Player.getHeight (_ : Player) : Nat := 3

def Player.updateCooldown (p : Player) : Player :=
  let p := if p.fireCooldown > 0 then { p with fireCooldown := p.fireCooldown - 1 } else p
  if p.damageFlashFrames > 0 then { p with damageFlashFrames := p.damageFlashFrames - 1 } else p

/-- Rust `Player::take_damage` (saturating subtraction on `u8` health). -/
def Player.takeDamage (p : Player) (damage : Nat) : Player :=
  { p with health := p.health - damage, damageFlashFrames := 10 }

def Player.isAlive (p : Player) : Bool := 0 < p.health

def Player.changeWeapon (p : Player) (weaponType : WeaponType) : Player :=
  { p with currentWeapon := weaponType }

inductive ProjectileOwner where
  | Player
  | Enemy
deriving DecidableEq

inductive ProjectileType where
  | Bullet
  | Slash
  | BugShot
  | BomberProjectile
deriving DecidableEq

structure Projectile where
  x : Nat
  y : Nat
  owner : ProjectileOwner
  damage : Nat
  projectileType : ProjectileType
  velocityX : Int
  lifetime : Option Nat
deriving DecidableEq

/-- Rust `Projectile::new`: a plain bullet; damage is 10 for either owner. -/
def Projectile.new (x y : Nat) (owner : ProjectileOwner) : Projectile :=
  ⟨x, y, owner, 10, .Bullet, 0, none⟩

def Projectile.newWithType (x y : Nat) (owner : ProjectileOwner)
    (projectileType : ProjectileType) (velocityX : Int) (lifetime : Option Nat) : Projectile :=
  ⟨x, y, owner, 10, projectileType, velocityX, lifetime⟩

def Projectile.newWithDamage (x y : Nat) (owner : ProjectileOwner)
    (projectileType : ProjectileType) (velocityX : Int) (lifetime : Option Nat)
    (damage : Nat) : Projectile :=
  ⟨x, y, owner, damage, projectileType, velocityX, lifetime⟩

/-- Rust `Projectile::update`: decrement the optional lifetime (floor at zero),
move vertically (bombers only when `lifetime % 3 == 0`), then apply the
horizontal velocity when the resulting coordinate is non-negative. -/
def Projectile.update (p : Projectile) : Projectile :=
  let p := { p with lifetime := match p.lifetime with
    | some l => some (if 0 < l then l - 1 else l)
    | none => none }
  let shouldMove :=
    if p.projectileType = .BomberProjectile then
      match p.lifetime with
      | none => true
      | some l => l % 3 = 0
    else true
  let p :=
    if shouldMove then
      match p.owner with
      | .Player => if 0 < p.y then { p with y := p.y - 1 } else p
      | .Enemy => { p with y := u16Mod (p.y + 1) }
    else p
  if p.velocityX ≠ 0 then
    let newX := toI16 p.x + p.velocityX
    if 0 ≤ newX then { p with x := i16ToU16 newX } else p
  else p

/-- Rust `Projectile::is_out_of_bounds`: expired lifetime counts as out of bounds. -/
def Projectile.isOutOfBounds (p : Projectile) (minX maxX maxY : Nat) : Bool :=
  if p.lifetime = some 0 then true
  else p.y = 0 || p.y ≥ maxY || p.x < minX || p.x ≥ maxX

structure Particle where
  x : Nat
  y : Nat
  velocityX : Int
  velocityY : Int
  lifetime : Nat
  char : Char
deriving DecidableEq

def Particle.update (p : Particle) : Particle :=
  let p := if p.lifetime > 0 then { p with lifetime := p.lifetime - 1 } else p
  let p :=
    if p.velocityX ≠ 0 then
      let newX := toI16 p.x + p.velocityX
      if 0 ≤ newX then { p with x := i16ToU16 newX } else p
    else p
  if p.velocityY ≠ 0 then
    let newY := toI16 p.y + p.velocityY
    if 0 ≤ newY then { p with y := i16ToU16 newY } else p
  else p

def Particle.isDead (p : Particle) : Bool := p.lifetime = 0

def Particle.isOutOfBounds (p : Particle) (minX maxX maxY : Nat) : Bool :=
  p.y ≥ maxY || p.x < minX || p.x ≥ maxX

/-- Rust `create_explosion_particles`: an 8-direction burst plus a central flash. -/
def createExplosionParticles (centerX centerY : Nat) : List Particle :=
  let directions : List (Int × Int) :=
    [(0, -1), (1, -1), (1, 0), (1, 1), (0, 1), (-1, 1), (-1, 0), (-1, -1)]
  directions.map (fun d => Particle.mk centerX centerY (d.1 * 1) (d.2 * 1) 6 '*')
    ++ [Particle.mk centerX centerY 0 0 4 'o']

structure Pickup where
  x : Nat
  y : Nat
  weaponType : WeaponType
  frameCounter : Nat
deriving DecidableEq

def Pickup.new (x y : Nat) (weaponType : WeaponType) : Pickup := ⟨x, y, weaponType, 0⟩

def Pickup.update (p : Pickup) : Pickup :=
  let p := { p with frameCounter := u8Mod (p.frameCounter + 1) }
  if p.frameCounter % 15 = 0 then { p with y := u16Mod (p.y + 1) } else p

def Pickup.isOutOfBounds (p : Pickup) (maxY : Nat) : Bool := p.y ≥ maxY

def Pickup.getWidth (_ : Pickup) : Nat := 1

def Pickup.getHeight (_ : Pickup) : Nat := 1

inductive FormationType where
  | VShape
  | Diamond
  | Wall
  | Block
deriving DecidableEq

structure Formation where
  centerX : Nat
  centerY : Nat
  formationType : FormationType
  directionX : Int
  frameCounter : Nat
  enemyIndices : List Nat
deriving DecidableEq

def Formation.new (centerX centerY : Nat) (formationType : FormationType) : Formation :=
  ⟨centerX, centerY, formationType, 1, 0, []⟩

/-- Rust `Formation::get_positions`: the fixed per-shape offset tables. -/
def Formation.getPositions (f : Formation) : List (Int × Int) :=
  match f.formationType with
  | .VShape =>
    [(0, 0), (-8, 4), (-16, 8), (-24, 12), (8, 4), (16, 8), (24, 12)]
  | .Diamond =>
    [(0, 0), (-8, 4), (8, 4), (-16, 8), (0, 8), (16, 8), (-8, 12), (8, 12), (0, 16)]
  | .Wall =>
    [(-24, 0), (-16, 0), (-8, 0), (0, 0), (8, 0), (16, 0), (24, 0),
     (-24, 4), (-16, 4), (-8, 4), (0, 4), (8, 4), (16, 4), (24, 4)]
  | .Block =>
    [(-12, 0), (-4, 0), (4, 0), (12, 0), (-12, 4), (-4, 4), (4, 4), (12, 4),
     (-12, 8), (-4, 8), (4, 8), (12, 8), (-12, 12), (-4, 12), (4, 12), (12, 12)]

/-- Rust `Formation::update`: descend every 8th frame; every 4th frame attempt the
horizontal step, rejecting it (and inverting the direction) when the
resulting occupied edges would violate the 5-cell left / 10-cell right
margins against the lane width `maxX`. -/
def Formation.update (f : Formation) (maxX : Nat) : Formation :=
  let fc := u16Mod (f.frameCounter + 1)
  let f := { f with frameCounter := fc }
  let f := if fc % 8 = 0 then { f with centerY := u16Mod (f.centerY + 1) } else f
  if fc % 4 = 0 then
    let newX := toI16 f.centerX + f.directionX
    let minOffset := (f.getPositions.map Prod.fst).min?.getD 0
    let maxOffset := (f.getPositions.map Prod.fst).max?.getD 0
    let leftEdge := newX + minOffset
    let rightEdge := newX + maxOffset
    if 5 ≤ leftEdge ∧ rightEdge ≤ toI16 maxX - 10 then
      { f with centerX := i16ToU16 newX }
    else
      { f with directionX := -f.directionX }
  else f

/-! ## Sequences of damage applications (claim C3) -/

def Enemy.applyDamages (e : Enemy) (damages : List Nat) : Enemy :=
  damages.foldl (fun a d => a.takeDamage d) e

def Player.applyDamages (p : Player) (damages : List Nat) : Player :=
  damages.foldl (fun a d => a.takeDamage d) p

theorem enemy_applyDamages_health (e : Enemy) (ds : List Nat) :
    (e.applyDamages ds).health = e.health - ds.sum := by
  induction ds generalizing e with
  | nil => rfl
  | cons d ds ih =>
    show ((e.takeDamage d).applyDamages ds).health = _
    rw [ih]
    show e.health - d - ds.sum = e.health - (d :: ds).sum
    rw [List.sum_cons]
    omega

theorem player_applyDamages_health (p : Player) (ds : List Nat) :
    (p.applyDamages ds).health = p.health - ds.sum := by
  induction ds generalizing p with
  | nil => rfl
  | cons d ds ih =>
    show ((p.takeDamage d).applyDamages ds).health = _
    rw [ih]
    show p.health - d - ds.sum = p.health - (d :: ds).sum
    rw [List.sum_cons]
    omega

theorem listSum_natCast (ds : List Nat) : (ds.map (Nat.cast : Nat → Int)).sum = (ds.sum : Int) := by
  induction ds with
  | nil => rfl
  | cons d ds ih => rw [List.map_cons, List.sum_cons, List.sum_cons, ih, Nat.cast_add]

/-- C3: for every health-carrying entity (Player or Enemy) and every finite
sequence of damage applications via `take_damage`, the resulting health is
`max 0 (initial − sum of damages)`: health never underflows below zero.
As the concrete instance, a Basic enemy with 15 health hit twice for 10
damage goes 15 → 5 → 0 and dies exactly on the second hit. -/
theorem C3_health_saturates :
    (∀ (e : Enemy) (ds : List Nat),
      ((e.applyDamages ds).health : Int) =
        max 0 ((e.health : Int) - (ds.map (Nat.cast : Nat → Int)).sum)) ∧
    (∀ (p : Player) (ds : List Nat),
      ((p.applyDamages ds).health : Int) =
        max 0 ((p.health : Int) - (ds.map (Nat.cast : Nat → Int)).sum)) ∧
    ((Enemy.newInFormation 10 10 .Basic 0 (0, 0)).health = 15 ∧
      ((Enemy.newInFormation 10 10 .Basic 0 (0, 0)).applyDamages [10]).health = 5 ∧
      ((Enemy.newInFormation 10 10 .Basic 0 (0, 0)).applyDamages [10, 10]).health = 0 ∧
      ((Enemy.newInFormation 10 10 .Basic 0 (0, 0)).applyDamages [10]).isAlive = true ∧
      ((Enemy.newInFormation 10 10 .Basic 0 (0, 0)).applyDamages [10, 10]).isAlive = false) := by
  refine ⟨fun e ds => ?_, fun p ds => ?_, by decide⟩
  · have h := enemy_applyDamages_health e ds
    rw [listSum_natCast]
    omega
  · have h := player_applyDamages_health p ds
    rw [listSum_natCast]
    omega

/-! ## Formation movement policy (claim C5) -/

/-- The margin test of `Formation::update`: after advancing the center by the
current direction, the leftmost occupied offset must keep a 5-cell left
margin and the rightmost occupied offset a 10-cell right margin against
the lane width. -/
def Formation.marginsOk (f : Formation) (maxX : Nat) : Prop :=
  5 ≤ toI16 f.centerX + f.directionX + (f.getPositions.map Prod.fst).min?.getD 0 ∧
    toI16 f.centerX + f.directionX + (f.getPositions.map Prod.fst).max?.getD 0 ≤ toI16 maxX - 10

instance (f : Formation) (maxX : Nat) : Decidable (f.marginsOk maxX) := by
  unfold Formation.marginsOk
  exact inferInstance

theorem Formation.update_eq (f : Formation) (maxX : Nat) :
    f.update maxX =
      (let fc := u16Mod (f.frameCounter + 1)
       let g : Formation :=
         { f with frameCounter := fc,
                  centerY := if fc % 8 = 0 then u16Mod (f.centerY + 1) else f.centerY }
       if fc % 4 = 0 then
         if f.marginsOk maxX then { g with centerX := i16ToU16 (toI16 f.centerX + f.directionX) }
         else { g with directionX := -f.directionX }
       else g) := by
  obtain ⟨cx, cy, ft, dx, fc0, idxs⟩ := f
  simp only [Formation.update, Formation.marginsOk, Formation.getPositions]
  split_ifs <;> rfl

/-- C5: per formation update with lane width `maxX`: the vertical center
advances by one cell exactly on every 8th tick; on every 4th tick the
horizontal center advances by the current direction exactly when the margin
test passes, and otherwise the center stays and the direction is inverted —
the direction inverts if and only if the attempted advance would violate
the margins. With lane width 80 and a fresh formation at center 70 moving
right, four ticks suffice to flip the direction to −1. -/
theorem C5_formation_sweep :
    (∀ (f : Formation) (maxX : Nat),
      (u16Mod (f.frameCounter + 1) % 8 = 0 → (f.update maxX).centerY = u16Mod (f.centerY + 1)) ∧
      (u16Mod (f.frameCounter + 1) % 8 ≠ 0 → (f.update maxX).centerY = f.centerY) ∧
      (u16Mod (f.frameCounter + 1) % 4 ≠ 0 →
        (f.update maxX).centerX = f.centerX ∧ (f.update maxX).directionX = f.directionX) ∧
      (u16Mod (f.frameCounter + 1) % 4 = 0 →
        (f.marginsOk maxX →
          (f.update maxX).centerX = i16ToU16 (toI16 f.centerX + f.directionX) ∧
          (f.update maxX).directionX = f.directionX) ∧
        (¬ f.marginsOk maxX →
          (f.update maxX).centerX = f.centerX ∧
          (f.update maxX).directionX = -f.directionX))) ∧
    ((fun f => Formation.update f 80)^[4] (Formation.new 70 5 .VShape)).directionX = -1 := by
  constructor
  · intro f maxX
    rw [Formation.update_eq]
    by_cases h8 : u16Mod (f.frameCounter + 1) % 8 = 0 <;>
      by_cases h4 : u16Mod (f.frameCounter + 1) % 4 = 0 <;>
      by_cases hm : f.marginsOk maxX <;>
      simp [h8, h4, hm]
  · decide

theorem C5_formation_sweep_witness :
    ((Formation.new 40 10 .VShape).update 80).centerX = 40 ∧
      ((Formation.new 40 10 .VShape).update 80).directionX = 1 :=
  (C5_formation_sweep.1 (Formation.new 40 10 .VShape) 80).2.2.1 (by decide)

/-! ## Removal discipline of the collision resolver (claim C4)

`check_collisions` prunes every "to remove" index list by sorting it,
reversing it (descending), removing consecutive duplicates (`Vec::dedup`)
and then calling `Vec::remove` on each index under a bound check. -/

/-- The survivors of a list under a position predicate, in their original
relative order: the reference specification for index-based pruning. -/
def survivorsBy : List α → (Nat → Bool) → List α
  | [], _ => []
  | a :: l, p =>
    match p 0 with
    | true => a :: survivorsBy l (fun n => p (n + 1))
    | false => survivorsBy l (fun n => p (n + 1))

/-- The tail worker of `Vec::dedup`: drop the elements equal to the last
kept element `a`, keeping the first of every new run. -/
def dedupFrom (a : Nat) : List Nat → List Nat
  | [] => []
  | b :: l => if a = b then dedupFrom a l else b :: dedupFrom b l

/-- Rust `Vec::dedup`: remove consecutive repeated elements, keeping the first. -/
def rustDedup : List Nat → List Nat
  | [] => []
  | a :: l => a :: dedupFrom a l

/-- The removal loop of `check_collisions`: `Vec::remove` on each listed
index, guarded by a bound check against the current length. -/
def rustRemoveLoop : List Nat → List α → List α
  | [], l => l
  | i :: is, l => rustRemoveLoop is (if i < l.length then l.eraseIdx i else l)

/-- The full pruning pipeline: ascending unstable sort, reverse, dedup,
then the guarded removal loop. -/
def pruneMarked (marked : List Nat) (l : List α) : List α :=
  rustRemoveLoop (rustDedup (List.insertionSort (· ≤ ·) marked).reverse) l

theorem mem_dedupFrom_iff (x : Nat) (l : List Nat) :
    ∀ a : Nat, (x ∈ dedupFrom a l ∨ x = a) ↔ (x ∈ l ∨ x = a) := by
  induction l with
  | nil => intro a; rfl
  | cons b l ih =>
    intro a
    by_cases hab : a = b
    · rw [dedupFrom, if_pos hab, ih a]
      subst hab
      simp only [List.mem_cons]
      tauto
    · rw [dedupFrom, if_neg hab]
      have hb := ih b
      simp only [List.mem_cons]
      constructor
      · rintro (⟨rfl | hx⟩ | rfl)
        · exact Or.inl (Or.inl rfl)
        · rcases hb.1 (Or.inl hx) with hl | rfl
          · exact Or.inl (Or.inr hl)
          · exact Or.inl (Or.inl rfl)
        · exact Or.inr rfl
      · rintro (⟨rfl | hx⟩ | rfl)
        · exact Or.inl (Or.inl rfl)
        · rcases hb.2 (Or.inl hx) with hd | rfl
          · exact Or.inl (Or.inr hd)
          · exact Or.inl (Or.inl rfl)
        · exact Or.inr rfl

theorem mem_dedupFrom_sub (x a : Nat) (l : List Nat) (h : x ∈ dedupFrom a l) :
    x ∈ l ∨ x = a := (mem_dedupFrom_iff x l a).1 (Or.inl h)

theorem mem_rustDedup (a : Nat) (l : List Nat) : a ∈ rustDedup l ↔ a ∈ l := by
  cases l with
  | nil => rfl
  | cons b l =>
    show a ∈ b :: dedupFrom b l ↔ _
    simp only [List.mem_cons]
    constructor
    · rintro (rfl | hx)
      · exact Or.inl rfl
      · rcases mem_dedupFrom_sub a b l hx with hl | rfl
        · exact Or.inr hl
        · exact Or.inl rfl
    · rintro (rfl | hx)
      · exact Or.inl rfl
      · rcases (mem_dedupFrom_iff a l b).2 (Or.inl hx) with hd | rfl
        · exact Or.inr hd
        · exact Or.inl rfl

theorem pairwise_dedupFrom (l : List Nat) :
    ∀ a : Nat, (a :: l).Pairwise (· ≥ ·) → (a :: dedupFrom a l).Pairwise (· > ·) := by
  induction l with
  | nil =>
    intro a _
    simp [dedupFrom]
  | cons b l ih =>
    intro a h
    rcases List.pairwise_cons.1 h with ⟨ha, hrest⟩
    by_cases hab : a = b
    · rw [dedupFrom, if_pos hab]
      refine ih a (List.pairwise_cons.2 ⟨?_, (List.pairwise_cons.1 hrest).2⟩)
      intro x hx
      exact ha x (List.mem_cons_of_mem b hx)
    · rw [dedupFrom, if_neg hab]
      have hb : (b :: dedupFrom b l).Pairwise (· > ·) := ih b hrest
      refine List.pairwise_cons.2 ⟨?_, hb⟩
      intro x hx
      have hagtb : a > b :=
        lt_of_le_of_ne (ha b (List.mem_cons_self b l)) (fun hc => hab hc.symm)
      rcases List.mem_cons.1 hx with rfl | hx2
      · exact hagtb
      · rcases mem_dedupFrom_sub x b l hx2 with hl | rfl
        · have : b ≥ x := (List.pairwise_cons.1 hrest).1 x hl
          omega
        · exact hagtb

theorem pairwise_rustDedup (l : List Nat) (h : l.Pairwise (· ≥ ·)) :
    (rustDedup l).Pairwise (· > ·) := by
  cases l with
  | nil => exact List.Pairwise.nil
  | cons a l => exact pairwise_dedupFrom l a h

theorem survivorsBy_congr (l : List α) (p q : Nat → Bool) (h : ∀ n, p n = q n) :
    survivorsBy l p = survivorsBy l q := by
  induction l generalizing p q with
  | nil => rfl
  | cons a l ih =>
    simp only [survivorsBy, h 0]
    rw [ih (fun n => p (n + 1)) (fun n => q (n + 1)) (fun n => h (n + 1))]

theorem survivorsBy_true (l : List α) : survivorsBy l (fun _ => true) = l := by
  induction l with
  | nil => rfl
  | cons a l ih => simp only [survivorsBy]; rw [ih]

theorem survivorsBy_sublist (l : List α) (p : Nat → Bool) : (survivorsBy l p).Sublist l := by
  induction l generalizing p with
  | nil => exact List.Sublist.refl []
  | cons a l ih =>
    cases hp : p 0
    · simpa [survivorsBy, hp] using (ih (fun n => p (n + 1))).cons a
    · simpa [survivorsBy, hp] using (ih (fun n => p (n + 1))).cons₂ a

theorem survivorsBy_eraseIdx (l : List α) (i : Nat) (p : Nat → Bool) :
    survivorsBy (l.eraseIdx i) p =
      survivorsBy l (fun j => if j < i then p j else if j = i then false else p (j - 1)) := by
  induction l generalizing i p with
  | nil => simp [List.eraseIdx, survivorsBy]
  | cons a l ih =>
    cases i with
    | zero =>
      show survivorsBy l p = survivorsBy (a :: l) _
      have h0 : (if (0 : Nat) < 0 then p 0 else if (0 : Nat) = 0 then false else p (0 - 1))
          = false := by simp
      simp only [survivorsBy, h0]
      refine survivorsBy_congr l _ _ ?_
      intro n
      simp
    | succ i =>
      show survivorsBy (a :: l.eraseIdx i) p = survivorsBy (a :: l) _
      have h0 : (if 0 < i + 1 then p 0 else if 0 = i + 1 then false else p (0 - 1)) = p 0 := by
        rw [if_pos (Nat.succ_pos i)]
      simp only [survivorsBy, h0]
      have hpred : ∀ n,
          (if n < i then p (n + 1) else if n = i then false else p (n - 1 + 1))
            = (if n + 1 < i + 1 then p (n + 1)
                else if n + 1 = i + 1 then false else p (n + 1 - 1)) := by
        intro n
        by_cases h1 : n < i
        · rw [if_pos h1, if_pos (by omega)]
        · by_cases h2 : n = i
          · rw [if_neg h1, if_pos h2, if_neg (by omega), if_pos (by omega)]
          · rw [if_neg h1, if_neg h2, if_neg (by omega), if_neg (by omega)]
            congr 1
            omega
      have hmain := (ih i (fun n => p (n + 1))).trans
        (survivorsBy_congr l _ _ hpred)
      cases hp : p 0 <;> simp only [hp, hmain]

theorem eraseIdx_of_length_le (l : List α) (i : Nat) (h : l.length ≤ i) : l.eraseIdx i = l := by
  induction l generalizing i with
  | nil => simp [List.eraseIdx]
  | cons a l ih =>
    cases i with
    | zero => simp at h
    | succ i =>
      simp only [List.eraseIdx]
      rw [ih i (by simpa using h)]

theorem rustRemoveLoop_descending (is : List Nat) (l : List α) (h : is.Pairwise (· > ·)) :
    rustRemoveLoop is l = survivorsBy l (fun j => decide (j ∉ is)) := by
  induction is generalizing l with
  | nil => simp [rustRemoveLoop, survivorsBy_true]
  | cons i is ih =>
    rcases List.pairwise_cons.1 h with ⟨hgt, his⟩
    have hstep : (if i < l.length then l.eraseIdx i else l) = l.eraseIdx i := by
      by_cases hi : i < l.length
      · rw [if_pos hi]
      · rw [if_neg hi, eraseIdx_of_length_le l i (by omega)]
    rw [rustRemoveLoop, hstep, ih (l.eraseIdx i) his, survivorsBy_eraseIdx]
    refine survivorsBy_congr l _ _ ?_
    intro j
    by_cases h1 : j < i
    · have hji : j ∉ is → j ∉ i :: is := by
        intro hj hmem
        rcases List.mem_cons.1 hmem with rfl | hc
        · omega
        · exact hj hc
      have hji2 : j ∉ i :: is → j ∉ is := fun hj hc => hj (List.mem_cons_of_mem i hc)
      simp only [if_pos h1]
      by_cases hj : j ∈ is
      · have : j ∈ i :: is := List.mem_cons_of_mem i hj
        simp [hj, this]
      · have : j ∉ i :: is := hji hj
        simp [hj, this]
    · by_cases h2 : j = i
      · subst h2
        simp [List.mem_cons]
      · have h3 : i < j := by omega
        have hnotis : j - 1 ∉ is := by
          intro hc
          have := hgt (j - 1) hc
          omega
        have hnot2 : j ∉ i :: is := by
          intro hc
          rcases List.mem_cons.1 hc with rfl | hc2
          · omega
          · have := hgt j hc2
            omega
        simp only [if_neg h1, if_neg h2]
        simp [hnotis, hnot2]

/-- C4: pruning an entity collection with a marked-index list (deduplicated,
removed in descending order, bound-checked) keeps exactly the entities at
unmarked positions, in their original relative order; in particular the
result is a sublist of the original collection, so removing several dead
enemies and spent projectiles in one tick never reorders the survivors. -/
theorem pruneMarked_eq_survivorsBy (l : List α) (marked : List Nat) :
    pruneMarked marked l = survivorsBy l (fun i => decide (i ∉ marked)) := by
  have hsorted : (List.insertionSort (· ≤ ·) marked).Pairwise (· ≤ ·) :=
    List.sorted_insertionSort (· ≤ ·) marked
  have hrev : (List.insertionSort (· ≤ ·) marked).reverse.Pairwise (· ≥ ·) := by
    rw [List.pairwise_reverse]
    exact hsorted
  have hdesc := pairwise_rustDedup _ hrev
  rw [pruneMarked, rustRemoveLoop_descending _ _ hdesc]
  refine survivorsBy_congr l _ _ ?_
  intro j
  have hmem : (j ∈ rustDedup (List.insertionSort (· ≤ ·) marked).reverse) ↔ j ∈ marked := by
    rw [mem_rustDedup, List.mem_reverse]
    exact List.mem_insertionSort (· ≤ ·)
  by_cases hj : j ∈ marked
  · simp [hj, hmem.2 hj]
  · have : j ∉ rustDedup (List.insertionSort (· ≤ ·) marked).reverse := fun hc => hj (hmem.1 hc)
    simp [hj, this]

theorem C4_prune_keeps_unmarked_in_order {α : Type} (l : List α) (marked : List Nat) :
    pruneMarked marked l = survivorsBy l (fun i => decide (i ∉ marked)) ∧
      List.Sublist (survivorsBy l (fun i => decide (i ∉ marked))) l :=
  ⟨pruneMarked_eq_survivorsBy l marked, survivorsBy_sublist l _⟩

/-! ## Collision resolver (src/app.rs `check_collisions`) -/

/-- Point-in-box test of a projectile against an enemy's sprite box. -/
def projectileHitsEnemy (p : Projectile) (e : Enemy) : Bool :=
  e.x ≤ p.x && p.x < e.x + e.getWidth && e.y ≤ p.y && p.y < e.y + e.getHeight

/-- Point-in-box test of a projectile against the player's sprite box. -/
def projectileHitsPlayer (p : Projectile) (pl : Player) : Bool :=
  pl.x ≤ p.x && p.x < pl.x + pl.getWidth && pl.y ≤ p.y && p.y < pl.y + pl.getHeight

/-- Axis-aligned box overlap between an enemy and the player (ramming). -/
def enemyOverlapsPlayer (e : Enemy) (pl : Player) : Bool :=
  e.x < pl.x + pl.getWidth && pl.x < e.x + e.getWidth &&
    e.y < pl.y + pl.getHeight && pl.y < e.y + e.getHeight

/-- Axis-aligned box overlap between a pickup and the player. -/
def pickupOverlapsPlayer (pk : Pickup) (pl : Player) : Bool :=
  pk.x < pl.x + pl.getWidth && pl.x < pk.x + pk.getWidth &&
    pk.y < pl.y + pl.getHeight && pl.y < pk.y + pk.getHeight

def enemyCenterX (e : Enemy) : Nat := e.x + e.getWidth / 2

def enemyCenterY (e : Enemy) : Nat := e.y + e.getHeight / 2

def EXPLOSION_RADIUS : Nat := 8

def EXPLOSION_DAMAGE : Nat := 25

/-- Squared-distance circle test of the bomber explosion (inclusive at the
radius boundary), from the projectile position to the enemy center. -/
def inExplosionRadius (px py : Nat) (e : Enemy) : Bool :=
  let dx := ((px : Int) - (enemyCenterX e : Int)).natAbs
  let dy := ((py : Int) - (enemyCenterY e : Int)).natAbs
  dx * dx + dy * dy ≤ EXPLOSION_RADIUS * EXPLOSION_RADIUS

structure AoeResult where
  enemies : List Enemy
  particles : List Particle
  score : Nat
  enemyMarks : List Nat
deriving DecidableEq

/-- The explosion inner loop of `check_collisions`: every enemy within the
radius takes the fixed area damage; dying enemies award points, spawn a
particle burst and are marked for removal (at position `i` onward). -/
def aoeLoop (px py : Nat) : List Enemy → Nat → AoeResult
  | [], _ => ⟨[], [], 0, []⟩
  | e :: rest, i =>
    if inExplosionRadius px py e then
      let cx := enemyCenterX e
      let cy := enemyCenterY e
      let e1 := e.takeDamage EXPLOSION_DAMAGE
      let r := aoeLoop px py rest (i + 1)
      if e1.isAlive then ⟨e1 :: r.enemies, r.particles, r.score, r.enemyMarks⟩
      else ⟨e1 :: r.enemies, createExplosionParticles cx cy ++ r.particles,
        e1.getPoints + r.score, i :: r.enemyMarks⟩
    else
      let r := aoeLoop px py rest (i + 1)
      ⟨e :: r.enemies, r.particles, r.score, r.enemyMarks⟩

structure HitResult where
  enemies : List Enemy
  particles : List Particle
  score : Nat
  enemyMark : Option Nat
  hit : Bool
deriving DecidableEq

/-- The regular (non-area) scan of one player projectile against the enemies
in storage order: the first enemy whose box contains the projectile point
takes the damage and the scan stops (`break` in the source). -/
def regularScan (p : Projectile) : List Enemy → Nat → HitResult
  | [], _ => ⟨[], [], 0, none, false⟩
  | e :: rest, i =>
    if projectileHitsEnemy p e then
      let e1 := e.takeDamage p.damage
      if e1.isAlive then ⟨e1 :: rest, [], 0, none, true⟩
      else ⟨e1 :: rest, createExplosionParticles (enemyCenterX e1) (enemyCenterY e1),
        e1.getPoints, some i, true⟩
    else
      let r := regularScan p rest (i + 1)
      ⟨e :: r.enemies, r.particles, r.score, r.enemyMark, r.hit⟩

structure Phase1Result where
  enemies : List Enemy
  particles : List Particle
  score : Nat
  projMarks : List Nat
  enemyMarks : List Nat
deriving DecidableEq

/-- Step 1 of `check_collisions`: player projectiles against enemies, with
the bomber area branch taken when the stored lifetime is exactly zero. -/
def phase1 : List Projectile → Nat → List Enemy → Phase1Result
  | [], _, enemies => ⟨enemies, [], 0, [], []⟩
  | p :: ps, i, enemies =>
    if p.owner = .Player then
      if p.projectileType = .BomberProjectile ∧ p.lifetime = some 0 then
        let a := aoeLoop p.x p.y enemies 0
        let r := phase1 ps (i + 1) a.enemies
        ⟨r.enemies, createExplosionParticles p.x p.y ++ a.particles ++ r.particles,
          a.score + r.score, i :: r.projMarks, a.enemyMarks ++ r.enemyMarks⟩
      else
        let h := regularScan p enemies 0
        let r := phase1 ps (i + 1) h.enemies
        ⟨r.enemies, h.particles ++ r.particles, h.score + r.score,
          (if h.hit then [i] else []) ++ r.projMarks,
          (match h.enemyMark with | some k => [k] | none => []) ++ r.enemyMarks⟩
    else
      let r := phase1 ps (i + 1) enemies
      ⟨r.enemies, r.particles, r.score, r.projMarks, r.enemyMarks⟩

/-- Step 2 of `check_collisions`: enemy projectiles against the player. -/
def phase2 : List Projectile → Nat → Player → Player × List Nat
  | [], _, pl => (pl, [])
  | p :: ps, i, pl =>
    if p.owner = .Enemy ∧ projectileHitsPlayer p pl then
      let r := phase2 ps (i + 1) (pl.takeDamage p.damage)
      (r.1, i :: r.2)
    else phase2 ps (i + 1) pl

/-- Step 3 of `check_collisions`: enemies ramming the player; the enemy is
destroyed and the player takes the fixed ramming damage of 20. -/
def phase3 : List Enemy → Nat → Player → Player × List Particle × List Nat
  | [], _, pl => (pl, [], [])
  | e :: es, i, pl =>
    if enemyOverlapsPlayer e pl then
      let r := phase3 es (i + 1) (pl.takeDamage 20)
      (r.1, createExplosionParticles (enemyCenterX e) (enemyCenterY e) ++ r.2.1, i :: r.2.2)
    else phase3 es (i + 1) pl

/-- Step 4 of `check_collisions`: the player collecting pickups; every
overlapping pickup switches the equipped weapon and is marked. -/
def phase4 : List Pickup → Nat → Player → Player × List Nat
  | [], _, pl => (pl, [])
  | pk :: pks, i, pl =>
    if pickupOverlapsPlayer pk pl then
      let r := phase4 pks (i + 1) (pl.changeWeapon pk.weaponType)
      (r.1, i :: r.2)
    else phase4 pks (i + 1) pl

structure AppState where
  player : Player
  enemies : List Enemy
  formations : List Formation
  projectiles : List Projectile
  particles : List Particle
  pickups : List Pickup
  score : Nat
  screenWidth : Nat
  screenHeight : Nat
  edgeWidth : Nat
  frameCount : Nat
  spawnDelayFrames : Nat
deriving DecidableEq

/-- Rust `check_collisions`: the four interaction steps in their fixed order,
followed by the descending-order pruning of the marked indices (projectile
marks of steps 1 and 2 share one list, enemy marks of steps 1 and 3 share
one list), and finally the pickup step with its own pruning. -/
def checkCollisions (s : AppState) : AppState :=
  let p1 := phase1 s.projectiles 0 s.enemies
  let p2 := phase2 s.projectiles 0 s.player
  let p3 := phase3 p1.enemies 0 p2.1
  let projectiles1 := pruneMarked (p1.projMarks ++ p2.2) s.projectiles
  let enemies1 := pruneMarked (p1.enemyMarks ++ p3.2.2) p1.enemies
  let p4 := phase4 s.pickups 0 p3.1
  let pickups1 := pruneMarked p4.2 s.pickups
  { s with
      player := p4.1,
      enemies := enemies1,
      projectiles := projectiles1,
      particles := s.particles ++ p1.particles ++ p3.2.1,
      pickups := pickups1,
      score := s.score + p1.score }

/-! ## The per-tick game update (src/app.rs `update_game`)

The pseudo-random draws of a tick (formation shape, spawn position, enemy
type, the per-enemy 30% fire decision, the pickup coin flip and pickup
realization) are supplied by an explicit oracle, so the rest of the tick
is a pure function of the state. -/

structure TickOracle where
  formationType : FormationType
  formationCenterX : Nat
  enemyType : EnemyType
  fireDecision : Nat → Bool
  pickupDecision : Bool
  pickupWeapon : WeaponType
  pickupX : Nat

/-- The playable lane width: `screen_width - (edge_width * 2 + 2)`,
saturating. -/
def gameAreaWidth (s : AppState) : Nat := s.screenWidth - (s.edgeWidth * 2 + 2)

/-- Rust `spawn_formation`: create a formation record and one enemy per offset of
its shape table, each bound to the new formation's index, with positions
derived from the starting center (clamped at zero before the `u16` cast). -/
def spawnFormation (o : TickOracle) (s : AppState) : AppState :=
  let centerX := o.formationCenterX
  let centerY : Nat := 5
  let formationId := s.formations.length
  let f0 := Formation.new centerX centerY o.formationType
  let positions := f0.getPositions
  let startLen := s.enemies.length
  let newEnemies := positions.map (fun off =>
    Enemy.newInFormation (i16ToU16 (max (toI16 centerX + off.1) 0))
      (i16ToU16 (max (toI16 centerY + off.2) 0)) o.enemyType formationId off)
  let f1 := { f0 with enemyIndices := (List.range positions.length).map (fun k => startLen + k) }
  { s with enemies := s.enemies ++ newEnemies, formations := s.formations ++ [f1] }

/-- The spawn-director step of `update_game`: when no enemy is alive, either
count the 90-frame delay down or spawn a new formation and re-arm the
delay; while enemies are alive the delay is pinned at 90. -/
def spawnPhase (o : TickOracle) (s : AppState) : AppState :=
  if s.enemies = [] then
    if 0 < s.spawnDelayFrames then { s with spawnDelayFrames := s.spawnDelayFrames - 1 }
    else { spawnFormation o s with spawnDelayFrames := 90 }
  else { s with spawnDelayFrames := 90 }

/-- Frame-count increment and player cooldown decrement at the top of
`update_game`. -/
def preTick (s : AppState) : AppState :=
  { s with frameCount := s.frameCount + 1, player := s.player.updateCooldown }

/-- Projectile movement followed by the out-of-bounds (and expired-lifetime)
cull. -/
def projectilesStage (s : AppState) : AppState :=
  let projs := (s.projectiles.map Projectile.update).filter
    (fun p => ! p.isOutOfBounds 0 (gameAreaWidth s) s.screenHeight)
  { s with projectiles := projs }

/-- Particle movement followed by the dead / out-of-bounds cull. -/
def particlesStage (s : AppState) : AppState :=
  let parts := (s.particles.map Particle.update).filter
    (fun p => ! p.isDead && ! p.isOutOfBounds 0 (gameAreaWidth s) s.screenHeight)
  { s with particles := parts }

/-- Formation movement for the tick. -/
def formationsStage (s : AppState) : AppState :=
  { s with formations := s.formations.map (fun f => f.update (gameAreaWidth s)) }

/-- One enemy of the per-enemy loop: re-derive the position from the bound
formation when the stored index is in range, then run the enemy's own
update. -/
def enemyStep (formations : List Formation) (e : Enemy) : Enemy :=
  let e1 := match e.formationId with
    | some fid =>
      match formations.get? fid with
      | some f => e.updateFormationPosition f.centerX f.centerY
      | none => e
    | none => e
  e1.update

/-- The per-enemy loop of `update_game`: formation-derived positions, enemy
updates, and the cooldown-gated, oracle-decided enemy fire (a bullet from
the enemy's bottom center, appended in storage order). -/
def enemyLoop (o : TickOracle) (formations : List Formation) :
    List Enemy → Nat → List Enemy × List Projectile
  | [], _ => ([], [])
  | e :: es, i =>
    let e1 := enemyStep formations e
    let r := enemyLoop o formations es (i + 1)
    if e1.canFire && o.fireDecision i then
      (e1 :: r.1, Projectile.new (e1.x + e1.getWidth / 2) (e1.y + e1.getHeight) .Enemy :: r.2)
    else (e1 :: r.1, r.2)

def enemyLoopStage (o : TickOracle) (s : AppState) : AppState :=
  let r := enemyLoop o s.formations s.enemies 0
  { s with enemies := r.1, projectiles := s.projectiles ++ r.2 }

/-- Remove enemies that left the bottom of the screen. -/
def enemyCullStage (s : AppState) : AppState :=
  { s with enemies := s.enemies.filter (fun e => e.y < s.screenHeight) }

/-- Remove formations that left the screen or have no surviving member. -/
def formationCullStage (s : AppState) : AppState :=
  let fms := s.formations.filter (fun f =>
    decide (f.centerY < s.screenHeight) &&
      f.enemyIndices.any (fun idx =>
        decide (idx < s.enemies.length) &&
          (match s.enemies.get? idx with
           | some e => e.isAlive
           | none => false)))
  { s with formations := fms }

/-- Rust `spawn_pickup`, gated on the 180-frame cadence and the oracle coin flip. -/
def spawnPickup (o : TickOracle) (s : AppState) : AppState :=
  { s with pickups := s.pickups ++ [Pickup.new o.pickupX 3 o.pickupWeapon] }

def pickupSpawnStage (o : TickOracle) (s : AppState) : AppState :=
  if s.frameCount % 180 = 0 && o.pickupDecision then spawnPickup o s else s

/-- Pickup movement followed by the out-of-bounds cull. -/
def pickupMoveStage (s : AppState) : AppState :=
  let pks := (s.pickups.map Pickup.update).filter (fun p => ! p.isOutOfBounds s.screenHeight)
  { s with pickups := pks }

/-- One simulation tick (`update_game`): spawn director, entity movement,
formation-derived enemy positions and enemy fire, the off-screen culls,
pickup spawning and movement, and finally collision resolution. -/
def updateGame (o : TickOracle) (s : AppState) : AppState :=
  checkCollisions (pickupMoveStage (pickupSpawnStage o (formationCullStage (enemyCullStage
    (enemyLoopStage o (formationsStage (particlesStage (projectilesStage
      (spawnPhase o (preTick s))))))))))

/-- The formations list as it stands when enemy positions are derived:
after the spawn director and after the formations' own update of the tick. -/
def midFormations (o : TickOracle) (s : AppState) : List Formation :=
  (formationsStage (particlesStage (projectilesStage (spawnPhase o (preTick s))))).formations

/-- Iterated ticks under a list of oracles. -/
def runTicks : List TickOracle → AppState → AppState
  | [], s => s
  | o :: os, s => runTicks os (updateGame o s)

/-- The spawn condition of the per-tick spawn logic: no enemy is alive and
the delay counter has run out. -/
def spawnTriggered (s : AppState) : Prop := s.enemies = [] ∧ s.spawnDelayFrames = 0

/-! ## Claim C9: projectile damage respects ownership -/

/-- C9: the player-projectile-versus-enemy step ignores every Enemy-owned
projectile (enemies, score and marks are untouched when all projectiles are
Enemy-owned), and the enemy-projectile-versus-player step ignores every
Player-owned projectile (the player is untouched and nothing is marked):
projectile damage is only ever applied across the owner boundary. -/
theorem C9_ownership_boundary :
    (∀ (ps : List Projectile) (i : Nat) (enemies : List Enemy),
      (∀ p ∈ ps, p.owner = ProjectileOwner.Enemy) →
        phase1 ps i enemies = ⟨enemies, [], 0, [], []⟩) ∧
    (∀ (ps : List Projectile) (i : Nat) (pl : Player),
      (∀ p ∈ ps, p.owner = ProjectileOwner.Player) →
        phase2 ps i pl = (pl, [])) := by
  constructor
  · intro ps
    induction ps with
    | nil => intro i enemies _; rfl
    | cons p ps ih =>
      intro i enemies h
      have hp : p.owner = ProjectileOwner.Enemy := h p (List.mem_cons_self p ps)
      have hnot : ¬ p.owner = ProjectileOwner.Player := by rw [hp]; intro hc; cases hc
      rw [phase1, if_neg hnot, ih (i + 1) enemies (fun q hq => h q (List.mem_cons_of_mem p hq))]
  · intro ps
    induction ps with
    | nil => intro i pl _; rfl
    | cons p ps ih =>
      intro i pl h
      have hp : p.owner = ProjectileOwner.Player := h p (List.mem_cons_self p ps)
      have hnot : ¬ (p.owner = ProjectileOwner.Enemy ∧ projectileHitsPlayer p pl = true) := by
        rw [hp]
        intro hc
        cases hc.1
      rw [phase2, if_neg hnot, ih (i + 1) pl (fun q hq => h q (List.mem_cons_of_mem p hq))]

theorem C9_ownership_boundary_witness :
    phase1 [Projectile.new 12 11 .Enemy] 0 [Enemy.newInFormation 10 10 .Basic 0 (0, 0)]
        = ⟨[Enemy.newInFormation 10 10 .Basic 0 (0, 0)], [], 0, [], []⟩ ∧
      phase2 [Projectile.new 12 11 .Player] 0 (Player.new 40 40) = (Player.new 40 40, []) :=
  ⟨C9_ownership_boundary.1 [Projectile.new 12 11 .Enemy] 0
      [Enemy.newInFormation 10 10 .Basic 0 (0, 0)] (by decide),
    C9_ownership_boundary.2 [Projectile.new 12 11 .Player] 0 (Player.new 40 40) (by decide)⟩

/-! ## Claim C6: first-hit rule for non-area player projectiles -/

theorem regularScan_no_hit (p : Projectile) (es : List Enemy) (i : Nat)
    (h : ∀ e ∈ es, projectileHitsEnemy p e = false) :
    regularScan p es i = ⟨es, [], 0, none, false⟩ := by
  induction es generalizing i with
  | nil => rfl
  | cons e es ih =>
    have he := h e (List.mem_cons_self e es)
    rw [regularScan, if_neg (by simp [he])]
    rw [ih (i + 1) (fun q hq => h q (List.mem_cons_of_mem e hq))]

theorem regularScan_first_hit (p : Projectile) (es : List Enemy) (i k : Nat)
    (hk : k < es.length) (hhit : projectileHitsEnemy p (es.get ⟨k, hk⟩) = true)
    (hbefore : ∀ j (hj : j < es.length), j < k →
      projectileHitsEnemy p (es.get ⟨j, hj⟩) = false) :
    regularScan p es i =
      (if ((es.get ⟨k, hk⟩).takeDamage p.damage).isAlive then
        HitResult.mk (es.set k ((es.get ⟨k, hk⟩).takeDamage p.damage)) [] 0 none true
       else
        HitResult.mk (es.set k ((es.get ⟨k, hk⟩).takeDamage p.damage))
          (createExplosionParticles (enemyCenterX ((es.get ⟨k, hk⟩).takeDamage p.damage))
            (enemyCenterY ((es.get ⟨k, hk⟩).takeDamage p.damage)))
          ((es.get ⟨k, hk⟩).takeDamage p.damage).getPoints (some (i + k)) true) := by
  induction es generalizing i k with
  | nil => cases hk
  | cons e es ih =>
    cases k with
    | zero =>
      have hhit0 : projectileHitsEnemy p e = true := hhit
      have hget : (e :: es).get ⟨0, hk⟩ = e := rfl
      rw [regularScan, if_pos hhit0]
      cases halive : (e.takeDamage p.damage).isAlive <;> simp [hget, halive]
    | succ k =>
      have h0 : projectileHitsEnemy p e = false := hbefore 0 (Nat.succ_pos _) (Nat.succ_pos k)
      rw [regularScan, if_neg (by simp [h0])]
      have hk2 : k < es.length := Nat.lt_of_succ_lt_succ hk
      have hhit2 : projectileHitsEnemy p (es.get ⟨k, hk2⟩) = true := hhit
      have hbefore2 : ∀ j (hj : j < es.length), j < k →
          projectileHitsEnemy p (es.get ⟨j, hj⟩) = false := by
        intro j hj hjk
        exact hbefore (j + 1) (Nat.succ_lt_succ hj) (Nat.succ_lt_succ hjk)
      rw [ih (i + 1) k hk2 hhit2 hbefore2]
      have hget : (e :: es).get ⟨k + 1, hk⟩ = es.get ⟨k, hk2⟩ := rfl
      cases halive : ((es.get ⟨k, hk2⟩).takeDamage p.damage).isAlive <;>
        simp only [List.get_eq_getElem] at halive hget ⊢ <;>
        simp [hget, halive, List.set_cons_succ, show i + 1 + k = i + (k + 1) from by omega]

/-- C6: a non-area Player-owned projectile hits at most one enemy per tick:
in the player-projectile step, the first enemy in storage order whose
bounding box contains the projectile's position absorbs it — that enemy
takes the projectile's damage, the projectile is marked for removal, the
enemy is marked (and awards its points) exactly when the damage kills it,
and every other enemy, in particular every later one, is left untouched. -/
theorem C6_first_enemy_absorbs (p : Projectile) (enemies : List Enemy)
    (hOwner : p.owner = ProjectileOwner.Player)
    (hNotAoe : ¬ (p.projectileType = ProjectileType.BomberProjectile ∧ p.lifetime = some 0))
    (k : Nat) (hk : k < enemies.length)
    (hhit : projectileHitsEnemy p (enemies.get ⟨k, hk⟩) = true)
    (hbefore : ∀ j (hj : j < enemies.length), j < k →
      projectileHitsEnemy p (enemies.get ⟨j, hj⟩) = false) :
    (phase1 [p] 0 enemies).enemies = enemies.set k ((enemies.get ⟨k, hk⟩).takeDamage p.damage) ∧
    (phase1 [p] 0 enemies).projMarks = [0] ∧
    (((enemies.get ⟨k, hk⟩).takeDamage p.damage).isAlive = true →
      (phase1 [p] 0 enemies).enemyMarks = [] ∧ (phase1 [p] 0 enemies).score = 0) ∧
    (((enemies.get ⟨k, hk⟩).takeDamage p.damage).isAlive = false →
      (phase1 [p] 0 enemies).enemyMarks = [k] ∧
        (phase1 [p] 0 enemies).score = ((enemies.get ⟨k, hk⟩).takeDamage p.damage).getPoints) ∧
    (∀ j, j ≠ k → (phase1 [p] 0 enemies).enemies[j]? = enemies[j]?) := by
  have hphase : phase1 [p] 0 enemies =
      (let h := regularScan p enemies 0
       ⟨h.enemies, h.particles ++ [], h.score + 0,
        (if h.hit then [0] else []) ++ [],
        (match h.enemyMark with | some k => [k] | none => []) ++ []⟩) := by
    rw [phase1, if_pos hOwner, if_neg hNotAoe]
    rfl
  rw [hphase, regularScan_first_hit p enemies 0 k hk hhit hbefore]
  have hget : enemies.get ⟨k, hk⟩ = enemies[k] := rfl
  rw [hget]
  cases halive : (enemies[k].takeDamage p.damage).isAlive
  case false =>
    refine ⟨rfl, rfl, ?_, ?_, ?_⟩
    · intro hc
      cases hc
    · intro _
      exact ⟨by simp, by simp⟩
    · intro j hj
      exact List.getElem?_set_ne (fun hc => hj hc.symm)
  case true =>
    refine ⟨rfl, rfl, ?_, ?_, ?_⟩
    · intro _
      exact ⟨rfl, rfl⟩
    · intro hc
      cases hc
    · intro j hj
      exact List.getElem?_set_ne (fun hc => hj hc.symm)

theorem C6_first_enemy_absorbs_witness :
    (phase1 [Projectile.new 12 12 .Player] 0
        [Enemy.newInFormation 30 30 .Basic 0 (0, 0), Enemy.newInFormation 10 10 .Basic 0 (0, 0)]).enemies
      = [Enemy.newInFormation 30 30 .Basic 0 (0, 0),
          (Enemy.newInFormation 10 10 .Basic 0 (0, 0)).takeDamage 10] := by
  have h := C6_first_enemy_absorbs (Projectile.new 12 12 .Player)
    [Enemy.newInFormation 30 30 .Basic 0 (0, 0), Enemy.newInFormation 10 10 .Basic 0 (0, 0)]
    (by decide) (by decide) 1 (by decide) (by decide)
    (by
      intro j hj hjk
      have hj0 : j = 0 := by omega
      subst hj0
      show projectileHitsEnemy (Projectile.new 12 12 .Player)
        (Enemy.newInFormation 30 30 .Basic 0 (0, 0)) = false
      decide)
  rw [h.1]
  decide

/-! ## Claim C8: pickup collection -/

theorem phase2_player_pos (ps : List Projectile) (i : Nat) (pl : Player) :
    (phase2 ps i pl).1.x = pl.x ∧ (phase2 ps i pl).1.y = pl.y ∧
      (phase2 ps i pl).1.currentWeapon = pl.currentWeapon := by
  induction ps generalizing i pl with
  | nil => exact ⟨rfl, rfl, rfl⟩
  | cons p ps ih =>
    rw [phase2]
    split
    · exact ih (i + 1) (pl.takeDamage p.damage)
    · exact ih (i + 1) pl

theorem phase3_player_pos (es : List Enemy) (i : Nat) (pl : Player) :
    (phase3 es i pl).1.x = pl.x ∧ (phase3 es i pl).1.y = pl.y ∧
      (phase3 es i pl).1.currentWeapon = pl.currentWeapon := by
  induction es generalizing i pl with
  | nil => exact ⟨rfl, rfl, rfl⟩
  | cons e es ih =>
    rw [phase3]
    split
    · exact ih (i + 1) (pl.takeDamage 20)
    · exact ih (i + 1) pl

theorem pickupOverlapsPlayer_congr (pk : Pickup) (pl pl' : Player)
    (hx : pl.x = pl'.x) (hy : pl.y = pl'.y) :
    pickupOverlapsPlayer pk pl = pickupOverlapsPlayer pk pl' := by
  unfold pickupOverlapsPlayer Player.getWidth Player.getHeight
  rw [hx, hy]

theorem getD_getLast?_cons (a d : α) (l : List α) :
    ((a :: l).getLast?).getD d = (l.getLast?).getD a := by
  induction l generalizing a with
  | nil => rfl
  | cons b l ih =>
    rw [List.getLast?_cons_cons]
    cases h : (b :: l).getLast? with
    | none => simp at h
    | some w => rfl

theorem phase4_player (pks : List Pickup) (i : Nat) (pl : Player) :
    (phase4 pks i pl).1.x = pl.x ∧ (phase4 pks i pl).1.y = pl.y ∧
      (phase4 pks i pl).1.currentWeapon =
        (((pks.filter (fun pk => pickupOverlapsPlayer pk pl)).map Pickup.weaponType).getLast?).getD
          pl.currentWeapon := by
  induction pks generalizing i pl with
  | nil => exact ⟨rfl, rfl, rfl⟩
  | cons pk pks ih =>
    rw [phase4, List.filter_cons]
    by_cases hov : pickupOverlapsPlayer pk pl = true
    case neg =>
      have hov' : pickupOverlapsPlayer pk pl = false := by
        cases hq : pickupOverlapsPlayer pk pl
        · rfl
        · exact absurd hq hov
      rw [if_neg hov]
      simpa [hov'] using ih (i + 1) pl
    case pos =>
      rw [if_pos hov]
      have hchan := ih (i + 1) (pl.changeWeapon pk.weaponType)
      have hfilt : pks.filter (fun q => pickupOverlapsPlayer q (pl.changeWeapon pk.weaponType))
          = pks.filter (fun q => pickupOverlapsPlayer q pl) := by
        refine List.filter_congr ?_
        intro q _
        exact pickupOverlapsPlayer_congr q _ _ rfl rfl
      refine ⟨hchan.1, hchan.2.1, ?_⟩
      rw [hchan.2.2, hfilt]
      simp only [hov, if_true, List.map_cons]
      exact (getD_getLast?_cons pk.weaponType pl.currentWeapon _).symm

theorem phase4_marks_mem (pks : List Pickup) (n : Nat) (pl : Player) (k : Nat) :
    k ∈ (phase4 pks n pl).2 ↔
      ∃ j, ∃ hj : j < pks.length,
        k = n + j ∧ pickupOverlapsPlayer (pks.get ⟨j, hj⟩) pl = true := by
  induction pks generalizing n pl with
  | nil => simp [phase4]
  | cons pk pks ih =>
    rw [phase4]
    by_cases hov : pickupOverlapsPlayer pk pl = true
    case neg =>
      rw [if_neg hov]
      rw [ih (n + 1) pl]
      constructor
      · rintro ⟨j, hj, rfl, hhit⟩
        exact ⟨j + 1, Nat.succ_lt_succ hj, by omega, hhit⟩
      · rintro ⟨j, hj, rfl, hhit⟩
        cases j with
        | zero =>
          rw [show (pk :: pks).get ⟨0, hj⟩ = pk from rfl] at hhit
          exact absurd hhit hov
        | succ j =>
          exact ⟨j, Nat.lt_of_succ_lt_succ hj, by omega, hhit⟩
    case pos =>
      rw [if_pos hov]
      show k ∈ n :: (phase4 pks (n + 1) (pl.changeWeapon pk.weaponType)).2 ↔ _
      rw [List.mem_cons, ih (n + 1) (pl.changeWeapon pk.weaponType)]
      have hcong : ∀ (j : Nat) (hj : j < pks.length),
          pickupOverlapsPlayer (pks.get ⟨j, hj⟩) (pl.changeWeapon pk.weaponType)
            = pickupOverlapsPlayer (pks.get ⟨j, hj⟩) pl :=
        fun j hj => pickupOverlapsPlayer_congr _ _ _ rfl rfl
      constructor
      · rintro (rfl | ⟨j, hj, rfl, hhit⟩)
        · exact ⟨0, Nat.succ_pos _, by omega, hov⟩
        · rw [hcong j hj] at hhit
          exact ⟨j + 1, Nat.succ_lt_succ hj, by omega, hhit⟩
      · rintro ⟨j, hj, rfl, hhit⟩
        cases j with
        | zero => exact Or.inl (by omega)
        | succ j =>
          refine Or.inr ⟨j, Nat.lt_of_succ_lt_succ hj, by omega, ?_⟩
          rw [hcong j (Nat.lt_of_succ_lt_succ hj)]
          exact hhit

theorem survivorsBy_filter (l : List α) (q : Nat → Bool) (f : α → Bool)
    (h : ∀ (i : Nat) (hi : i < l.length), q i = f (l.get ⟨i, hi⟩)) :
    survivorsBy l q = l.filter f := by
  induction l generalizing q with
  | nil => rfl
  | cons a l ih =>
    have h0 : q 0 = f a := h 0 (Nat.succ_pos _)
    have hrec := ih (fun n => q (n + 1))
      (fun i hi => h (i + 1) (Nat.succ_lt_succ hi))
    rw [List.filter_cons, ← h0]
    cases hq : q 0 <;> simp [survivorsBy, hq, hrec]

/-- C8: during collision resolution, every pickup whose bounding box overlaps
the player's bounding box is removed from the pickup collection that same
tick (the post-resolution snapshot holds exactly the non-overlapping
pickups, in order), and the player's equipped weapon is switched to the
overlapping pickups' payloads, ending at the payload of the last
overlapping pickup (unchanged when no pickup overlaps). -/
theorem C8_pickup_collection (s : AppState) :
    (checkCollisions s).pickups
        = s.pickups.filter (fun pk => ! pickupOverlapsPlayer pk s.player) ∧
      (checkCollisions s).player.currentWeapon =
        (((s.pickups.filter (fun pk => pickupOverlapsPlayer pk s.player)).map
            Pickup.weaponType).getLast?).getD s.player.currentWeapon := by
  have h2 := phase2_player_pos s.projectiles 0 s.player
  have h3 := phase3_player_pos (phase1 s.projectiles 0 s.enemies).enemies 0
    (phase2 s.projectiles 0 s.player).1
  set pl3 := (phase3 (phase1 s.projectiles 0 s.enemies).enemies 0
    (phase2 s.projectiles 0 s.player).1).1 with hpl3
  have hx : pl3.x = s.player.x := h3.1.trans h2.1
  have hy : pl3.y = s.player.y := h3.2.1.trans h2.2.1
  have hw : pl3.currentWeapon = s.player.currentWeapon := h3.2.2.trans h2.2.2
  have h4 := phase4_player s.pickups 0 pl3
  have hfilt : ∀ (g : Bool → Bool),
      s.pickups.filter (fun pk => g (pickupOverlapsPlayer pk pl3))
        = s.pickups.filter (fun pk => g (pickupOverlapsPlayer pk s.player)) := by
    intro g
    refine List.filter_congr ?_
    intro q _
    rw [pickupOverlapsPlayer_congr q pl3 s.player hx hy]
  constructor
  · show pruneMarked (phase4 s.pickups 0 pl3).2 s.pickups = _
    rw [pruneMarked_eq_survivorsBy]
    rw [survivorsBy_filter s.pickups _ (fun pk => ! pickupOverlapsPlayer pk pl3) ?_]
    · exact hfilt (fun b => ! b)
    · intro i hi
      by_cases hmem : i ∈ (phase4 s.pickups 0 pl3).2
      · rcases (phase4_marks_mem s.pickups 0 pl3 i).1 hmem with ⟨j, hj, hij, hhit⟩
        have hji : j = i := by omega
        subst hji
        rw [List.get_eq_getElem] at hhit
        simp [hmem, hhit]
      · have hno : pickupOverlapsPlayer (s.pickups.get ⟨i, hi⟩) pl3 = false := by
          cases hq : pickupOverlapsPlayer (s.pickups.get ⟨i, hi⟩) pl3
          · rfl
          · exact absurd ((phase4_marks_mem s.pickups 0 pl3 i).2 ⟨i, hi, by omega, hq⟩) hmem
        rw [List.get_eq_getElem] at hno
        simp [hmem, hno]
  · show (phase4 s.pickups 0 pl3).1.currentWeapon = _
    rw [h4.2.2, hw]
    have := hfilt (fun b => b)
    simp only at this
    rw [this]

/-! ## Claim C10: score across a tick -/

/-- A fixed oracle for concrete evaluations: no enemy fires, no pickup
spawns. -/
def defaultOracle : TickOracle := ⟨.VShape, 30, .Basic, fun _ => false, false, .BasicGun, 3⟩

theorem spawnPhase_score (o : TickOracle) (s : AppState) : (spawnPhase o s).score = s.score := by
  unfold spawnPhase
  split
  · split <;> rfl
  · rfl

theorem pickupSpawnStage_score (o : TickOracle) (s : AppState) :
    (pickupSpawnStage o s).score = s.score := by
  unfold pickupSpawnStage
  split <;> rfl

theorem checkCollisions_score (t : AppState) :
    (checkCollisions t).score = t.score + (phase1 t.projectiles 0 t.enemies).score := rfl

theorem stages_score (o : TickOracle) (s : AppState) :
    (pickupMoveStage (pickupSpawnStage o (formationCullStage (enemyCullStage
      (enemyLoopStage o (formationsStage (particlesStage (projectilesStage
        (spawnPhase o (preTick s)))))))))).score = s.score := by
  calc (pickupMoveStage (pickupSpawnStage o (formationCullStage (enemyCullStage
        (enemyLoopStage o (formationsStage (particlesStage (projectilesStage
          (spawnPhase o (preTick s)))))))))).score
      = (pickupSpawnStage o (formationCullStage (enemyCullStage
          (enemyLoopStage o (formationsStage (particlesStage (projectilesStage
            (spawnPhase o (preTick s))))))))).score := rfl
    _ = (formationCullStage (enemyCullStage
          (enemyLoopStage o (formationsStage (particlesStage (projectilesStage
            (spawnPhase o (preTick s)))))))).score := pickupSpawnStage_score o _
    _ = (spawnPhase o (preTick s)).score := rfl
    _ = (preTick s).score := spawnPhase_score o _
    _ = s.score := rfl

/-- C10 (amended): the score is monotonically non-decreasing across every
simulation tick — the collision resolver only ever adds the points awarded
at its death-detection hit events to the score, and no other step of the
tick writes the score. (The per-tick increase can count one enemy more than
once: see the counterexample for the claim as originally stated.) -/
theorem C10_score_monotone (o : TickOracle) (s : AppState) :
    s.score ≤ (updateGame o s).score := by
  show s.score ≤ (checkCollisions _).score
  rw [checkCollisions_score, stages_score]
  exact Nat.le_add_right _ _

/-- The C10 counterexample state: a single Basic enemy (worth 10 points)
with 5 health left, and two player bullets both overlapping it. -/
def stateC10 : AppState :=
  ⟨Player.new 40 30,
   [⟨10, 10, 5, .Basic, 1, none, 0, 0, 0⟩],
   [],
   [Projectile.new 12 12 .Player, Projectile.new 13 12 .Player],
   [], [], 0, 60, 70, 5, 0, 90⟩

/-- C10 counterexample: with one 10-point enemy alive (so at most 10 points
of enemies can die this tick), the tick raises the score by 20: the first
bullet kills the enemy, the second hits the still-unpruned corpse and
awards its points again, so the increase is not the sum of the point values
of the enemies that died. -/
theorem C10_counterexample :
    stateC10.score = 0 ∧ stateC10.enemies.map Enemy.getPoints = [10] ∧
      stateC10.enemies.length = 1 ∧
      (updateGame defaultOracle stateC10).score = 20 := by decide

/-! ## Claim C1: bomber explosion on lifetime expiry -/

/-- The C1 state: a Player-owned bomber projectile one tick from expiry,
with a full-health Basic enemy inside the explosion radius. -/
def stateC1 : AppState :=
  ⟨Player.new 40 40,
   [⟨10, 10, 15, .Basic, 1, none, 0, 0, 0⟩],
   [],
   [Projectile.newWithDamage 12 12 .Player .BomberProjectile 0 (some 1) 5],
   [], [], 0, 60, 70, 5, 0, 90⟩

/-- C1 (code bug): the tick in which a Player-owned bomber's lifetime
reaches zero removes the projectile **without any area-damage event**: the
out-of-bounds cull (`is_out_of_bounds` returns true at lifetime zero) runs
before `check_collisions`, so the explosion branch never sees a lifetime of
exactly zero. Here the enemy sits inside the explosion radius of the
bomber's final position (12, 11), yet after the tick the bomber is gone,
the enemy still has its full 15 health and no points were scored — the
spec's area-damage event (25 damage, kill, +10 points) never happens. -/
theorem C1_bomber_culled_without_explosion :
    stateC1.projectiles
        = [Projectile.newWithDamage 12 12 .Player .BomberProjectile 0 (some 1) 5] ∧
      inExplosionRadius 12 11 ⟨10, 10, 15, .Basic, 1, none, 0, 0, 0⟩ = true ∧
      (updateGame defaultOracle stateC1).projectiles = [] ∧
      (updateGame defaultOracle stateC1).enemies.map Enemy.health = [15] ∧
      (updateGame defaultOracle stateC1).score = 0 := by decide

/-! ## Claim C7: formation spawn cooldown -/

theorem pickupSpawnStage_enemies (o : TickOracle) (s : AppState) :
    (pickupSpawnStage o s).enemies = s.enemies := by
  unfold pickupSpawnStage
  split <;> rfl

theorem pickupSpawnStage_delay (o : TickOracle) (s : AppState) :
    (pickupSpawnStage o s).spawnDelayFrames = s.spawnDelayFrames := by
  unfold pickupSpawnStage
  split <;> rfl

theorem checkCollisions_delay (t : AppState) :
    (checkCollisions t).spawnDelayFrames = t.spawnDelayFrames := rfl

theorem stages_delay (o : TickOracle) (t : AppState) :
    (pickupMoveStage (pickupSpawnStage o (formationCullStage (enemyCullStage
      (enemyLoopStage o (formationsStage (particlesStage
        (projectilesStage t)))))))).spawnDelayFrames = t.spawnDelayFrames := by
  calc (pickupMoveStage (pickupSpawnStage o (formationCullStage (enemyCullStage
        (enemyLoopStage o (formationsStage (particlesStage
          (projectilesStage t)))))))).spawnDelayFrames
      = (pickupSpawnStage o (formationCullStage (enemyCullStage
          (enemyLoopStage o (formationsStage (particlesStage
            (projectilesStage t))))))).spawnDelayFrames := rfl
    _ = (formationCullStage (enemyCullStage (enemyLoopStage o (formationsStage
          (particlesStage (projectilesStage t)))))).spawnDelayFrames :=
        pickupSpawnStage_delay o _
    _ = t.spawnDelayFrames := rfl

theorem updateGame_delay_nonempty (o : TickOracle) (s : AppState) (h : s.enemies ≠ []) :
    (updateGame o s).spawnDelayFrames = 90 := by
  show (checkCollisions _).spawnDelayFrames = 90
  rw [checkCollisions_delay, stages_delay]
  unfold spawnPhase
  rw [if_neg (show ¬ (preTick s).enemies = [] from h)]

theorem phase1_enemies_nil (ps : List Projectile) (i : Nat) :
    (phase1 ps i []).enemies = [] ∧ (phase1 ps i []).enemyMarks = [] := by
  induction ps generalizing i with
  | nil => exact ⟨rfl, rfl⟩
  | cons p ps ih =>
    by_cases h1 : p.owner = ProjectileOwner.Player
    · by_cases h2 : p.projectileType = ProjectileType.BomberProjectile ∧ p.lifetime = some 0
      · rw [phase1, if_pos h1, if_pos h2]
        exact ⟨(ih (i + 1)).1, (ih (i + 1)).2⟩
      · rw [phase1, if_pos h1, if_neg h2]
        exact ⟨(ih (i + 1)).1, (ih (i + 1)).2⟩
    · rw [phase1, if_neg h1]
      exact ⟨(ih (i + 1)).1, (ih (i + 1)).2⟩

theorem rustRemoveLoop_nil (is : List Nat) : rustRemoveLoop is ([] : List α) = [] := by
  induction is with
  | nil => rfl
  | cons i is ih =>
    rw [rustRemoveLoop, if_neg (by simp)]
    exact ih

theorem pruneMarked_nil (marked : List Nat) : pruneMarked marked ([] : List α) = [] :=
  rustRemoveLoop_nil _

theorem checkCollisions_enemies_nil (t : AppState) (h : t.enemies = []) :
    (checkCollisions t).enemies = [] := by
  show pruneMarked _ (phase1 t.projectiles 0 t.enemies).enemies = []
  rw [h, (phase1_enemies_nil t.projectiles 0).1, pruneMarked_nil]

theorem stages_enemies_nil (o : TickOracle) (t : AppState) (h : t.enemies = []) :
    (pickupMoveStage (pickupSpawnStage o (formationCullStage (enemyCullStage
      (enemyLoopStage o (formationsStage (particlesStage
        (projectilesStage t)))))))).enemies = [] := by
  have h1 : (enemyCullStage (enemyLoopStage o (formationsStage (particlesStage
      (projectilesStage t))))).enemies = [] := by
    show ((enemyLoop o (formationsStage (particlesStage (projectilesStage t))).formations
      t.enemies 0).1.filter _) = []
    rw [h]
    rfl
  calc (pickupMoveStage (pickupSpawnStage o (formationCullStage (enemyCullStage
        (enemyLoopStage o (formationsStage (particlesStage
          (projectilesStage t)))))))).enemies
      = (pickupSpawnStage o (formationCullStage (enemyCullStage
          (enemyLoopStage o (formationsStage (particlesStage
            (projectilesStage t))))))).enemies := rfl
    _ = (formationCullStage (enemyCullStage (enemyLoopStage o (formationsStage
          (particlesStage (projectilesStage t)))))).enemies := pickupSpawnStage_enemies o _
    _ = (enemyCullStage (enemyLoopStage o (formationsStage (particlesStage
          (projectilesStage t))))).enemies := rfl
    _ = [] := h1

theorem updateGame_empty_step (o : TickOracle) (s : AppState)
    (he : s.enemies = []) (hd : 0 < s.spawnDelayFrames) :
    (updateGame o s).enemies = [] ∧
      (updateGame o s).spawnDelayFrames = s.spawnDelayFrames - 1 := by
  have hsp : spawnPhase o (preTick s)
      = { preTick s with spawnDelayFrames := s.spawnDelayFrames - 1 } := by
    unfold spawnPhase
    rw [if_pos (show (preTick s).enemies = [] from he),
      if_pos (show 0 < (preTick s).spawnDelayFrames from hd)]
    rfl
  constructor
  · show (checkCollisions _).enemies = []
    apply checkCollisions_enemies_nil
    show (pickupMoveStage (pickupSpawnStage o (formationCullStage (enemyCullStage
      (enemyLoopStage o (formationsStage (particlesStage
        (projectilesStage (spawnPhase o (preTick s)))))))))).enemies = []
    rw [hsp]
    exact stages_enemies_nil o _ he
  · show (checkCollisions _).spawnDelayFrames = _
    rw [checkCollisions_delay, stages_delay, hsp]

theorem runTicks_empty (os : List TickOracle) (s : AppState)
    (he : s.enemies = []) (hlen : os.length < s.spawnDelayFrames) :
    (runTicks os s).enemies = [] ∧
      (runTicks os s).spawnDelayFrames = s.spawnDelayFrames - os.length := by
  induction os generalizing s with
  | nil => exact ⟨he, by simp [runTicks]⟩
  | cons o os ih =>
    have hd : 0 < s.spawnDelayFrames := by
      have : (o :: os).length = os.length + 1 := rfl
      omega
    have hstep := updateGame_empty_step o s he hd
    have hlen2 : os.length < (updateGame o s).spawnDelayFrames := by
      rw [hstep.2]
      have : (o :: os).length = os.length + 1 := rfl
      omega
    have hrec := ih (updateGame o s) hstep.1 hlen2
    refine ⟨hrec.1, ?_⟩
    show (runTicks os (updateGame o s)).spawnDelayFrames = _
    rw [hrec.2, hstep.2]
    have : (o :: os).length = os.length + 1 := rfl
    omega

/-- C7: the per-tick spawn logic spawns only when the enemy collection is
empty and the 90-tick cooldown has run out. First conjunct: on any tick in
which at least one enemy is alive, the spawn step changes neither the
formation nor enemy collections and pins the cooldown at 90. Second
conjunct: after a tick that starts with enemies alive and ends with the
collection empty (the wave cleared), the next 90 ticks — under arbitrary
oracles — never satisfy the spawn condition, and the spawn step of each of
those ticks leaves the formations untouched: no formation spawns within 90
ticks of the collection becoming empty. -/
theorem C7_spawn_cooldown :
    (∀ (o : TickOracle) (s : AppState), s.enemies ≠ [] →
      (spawnPhase o s).formations = s.formations ∧ (spawnPhase o s).enemies = s.enemies ∧
        (spawnPhase o s).spawnDelayFrames = 90) ∧
    (∀ (o : TickOracle) (s : AppState) (os : List TickOracle) (j : Nat),
      s.enemies ≠ [] → (updateGame o s).enemies = [] → j < 90 →
        ¬ spawnTriggered (runTicks (os.take j) (updateGame o s)) ∧
          ∀ o2 : TickOracle,
            (spawnPhase o2 (runTicks (os.take j) (updateGame o s))).formations
              = (runTicks (os.take j) (updateGame o s)).formations) := by
  constructor
  · intro o s h
    unfold spawnPhase
    rw [if_neg h]
    exact ⟨rfl, rfl, rfl⟩
  · intro o s os j hne hcleared hj
    have hdelay : (updateGame o s).spawnDelayFrames = 90 := updateGame_delay_nonempty o s hne
    have htake : (os.take j).length ≤ j := by
      rw [List.length_take]
      omega
    have hrun := runTicks_empty (os.take j) (updateGame o s) hcleared
      (by rw [hdelay]; omega)
    have hdpos : 0 < (runTicks (os.take j) (updateGame o s)).spawnDelayFrames := by
      rw [hrun.2, hdelay]
      omega
    constructor
    · intro hc
      rw [hc.2] at hdpos
      exact absurd hdpos (by omega)
    · intro o2
      unfold spawnPhase
      rw [if_pos hrun.1, if_pos hdpos]

/-- A wave-clearing tick for the cooldown witness: the only enemy is below
the bottom of the 70-row screen and is culled this tick. -/
def stateC7 : AppState :=
  ⟨Player.new 40 40,
   [⟨5, 70, 15, .Basic, 1, none, 0, 0, 0⟩],
   [], [], [], [], 0, 60, 70, 5, 0, 90⟩

theorem C7_spawn_cooldown_witness :
    ¬ spawnTriggered (runTicks (List.take 0 []) (updateGame defaultOracle stateC7)) :=
  (C7_spawn_cooldown.2 defaultOracle stateC7 [] 0 (by decide) (by decide) (by decide)).1

/-! ## Claim C2: formation-derived enemy positions -/

/-- Equality of the fields of an enemy that the collision resolver never
writes: position, formation membership and offset. -/
def posFieldsEq (a b : Enemy) : Prop :=
  a.x = b.x ∧ a.y = b.y ∧ a.formationId = b.formationId ∧
    a.offsetX = b.offsetX ∧ a.offsetY = b.offsetY

theorem posFieldsEq_refl (a : Enemy) : posFieldsEq a a := ⟨rfl, rfl, rfl, rfl, rfl⟩

theorem posFieldsEq_trans {a b c : Enemy} (h1 : posFieldsEq a b) (h2 : posFieldsEq b c) :
    posFieldsEq a c :=
  ⟨h1.1.trans h2.1, h1.2.1.trans h2.2.1, h1.2.2.1.trans h2.2.2.1,
    h1.2.2.2.1.trans h2.2.2.2.1, h1.2.2.2.2.trans h2.2.2.2.2⟩

theorem takeDamage_posFields (e : Enemy) (d : Nat) : posFieldsEq (e.takeDamage d) e :=
  ⟨rfl, rfl, rfl, rfl, rfl⟩

theorem forall₂_posFields_refl (l : List Enemy) : List.Forall₂ posFieldsEq l l := by
  induction l with
  | nil => exact List.Forall₂.nil
  | cons a l ih => exact List.Forall₂.cons (posFieldsEq_refl a) ih

theorem forall₂_posFields_trans {a b c : List Enemy}
    (h1 : List.Forall₂ posFieldsEq a b) (h2 : List.Forall₂ posFieldsEq b c) :
    List.Forall₂ posFieldsEq a c := by
  induction h1 generalizing c with
  | nil => cases h2; exact List.Forall₂.nil
  | cons hab h1 ih =>
    cases h2 with
    | cons hbc h2 => exact List.Forall₂.cons (posFieldsEq_trans hab hbc) (ih h2)

theorem forall₂_posFields_mem {l' l : List Enemy} (h : List.Forall₂ posFieldsEq l' l)
    {e : Enemy} (he : e ∈ l') : ∃ e₀ ∈ l, posFieldsEq e e₀ := by
  induction h with
  | nil => cases he
  | cons hab h ih =>
    rcases List.mem_cons.1 he with rfl | he2
    · exact ⟨_, List.mem_cons_self _ _, hab⟩
    · rcases ih he2 with ⟨e₀, hm, hp⟩
      exact ⟨e₀, List.mem_cons_of_mem _ hm, hp⟩

theorem aoeLoop_posFields (px py : Nat) (es : List Enemy) (i : Nat) :
    List.Forall₂ posFieldsEq (aoeLoop px py es i).enemies es := by
  induction es generalizing i with
  | nil => exact List.Forall₂.nil
  | cons e es ih =>
    simp only [aoeLoop]
    split
    · split
      · exact List.Forall₂.cons (takeDamage_posFields e _) (ih (i + 1))
      · exact List.Forall₂.cons (takeDamage_posFields e _) (ih (i + 1))
    · exact List.Forall₂.cons (posFieldsEq_refl e) (ih (i + 1))

theorem regularScan_posFields (p : Projectile) (es : List Enemy) (i : Nat) :
    List.Forall₂ posFieldsEq (regularScan p es i).enemies es := by
  induction es generalizing i with
  | nil => exact List.Forall₂.nil
  | cons e es ih =>
    simp only [regularScan]
    split
    · split
      · exact List.Forall₂.cons (takeDamage_posFields e _) (forall₂_posFields_refl es)
      · exact List.Forall₂.cons (takeDamage_posFields e _) (forall₂_posFields_refl es)
    · exact List.Forall₂.cons (posFieldsEq_refl e) (ih (i + 1))

theorem phase1_posFields (ps : List Projectile) (i : Nat) (es : List Enemy) :
    List.Forall₂ posFieldsEq (phase1 ps i es).enemies es := by
  induction ps generalizing i es with
  | nil => exact forall₂_posFields_refl es
  | cons p ps ih =>
    rw [phase1]
    split
    · split
      · exact forall₂_posFields_trans (ih (i + 1) _) (aoeLoop_posFields p.x p.y es 0)
      · exact forall₂_posFields_trans (ih (i + 1) _) (regularScan_posFields p es 0)
    · exact ih (i + 1) es

theorem checkCollisions_enemies_from (t : AppState) (e : Enemy)
    (h : e ∈ (checkCollisions t).enemies) : ∃ e₀ ∈ t.enemies, posFieldsEq e e₀ := by
  have hmem : e ∈ (phase1 t.projectiles 0 t.enemies).enemies := by
    have hsub : List.Sublist (checkCollisions t).enemies
        (phase1 t.projectiles 0 t.enemies).enemies := by
      show List.Sublist (pruneMarked _ (phase1 t.projectiles 0 t.enemies).enemies) _
      rw [pruneMarked_eq_survivorsBy]
      exact survivorsBy_sublist _ _
    exact hsub.subset h
  exact forall₂_posFields_mem (phase1_posFields t.projectiles 0 t.enemies) hmem

theorem Enemy.update_fields (e : Enemy) :
    (e.update).formationId = e.formationId ∧ (e.update).offsetX = e.offsetX ∧
      (e.update).offsetY = e.offsetY ∧
      (e.formationId.isSome = true → (e.update).x = e.x ∧ (e.update).y = e.y) := by
  obtain ⟨x, y, hp, ty, cd, fid, ox, oy, fl⟩ := e
  refine ⟨?_, ?_, ?_, ?_⟩
  · simp only [Enemy.update]
    split_ifs <;> rfl
  · simp only [Enemy.update]
    split_ifs <;> rfl
  · simp only [Enemy.update]
    split_ifs <;> rfl
  · intro hs
    cases fid with
    | none => cases hs
    | some f0 =>
      constructor <;> (simp only [Enemy.update]; split_ifs <;> rfl)

theorem Enemy.updateFormationPosition_fields (e : Enemy) (cx cy : Nat) :
    (e.updateFormationPosition cx cy).formationId = e.formationId ∧
      (e.updateFormationPosition cx cy).offsetX = e.offsetX ∧
      (e.updateFormationPosition cx cy).offsetY = e.offsetY ∧
      (0 ≤ toI16 cx + e.offsetX →
        (e.updateFormationPosition cx cy).x = i16ToU16 (toI16 cx + e.offsetX)) ∧
      (0 ≤ toI16 cy + e.offsetY →
        (e.updateFormationPosition cx cy).y = i16ToU16 (toI16 cy + e.offsetY)) := by
  obtain ⟨x, y, hp, ty, cd, fid, ox, oy, fl⟩ := e
  refine ⟨?_, ?_, ?_, ?_, ?_⟩ <;>
    simp only [Enemy.updateFormationPosition] <;>
    (try intro hcoord) <;>
    split_ifs <;> simp_all

theorem enemyStep_spec (F : List Formation) (e : Enemy) :
    (enemyStep F e).formationId = e.formationId ∧
      (enemyStep F e).offsetX = e.offsetX ∧ (enemyStep F e).offsetY = e.offsetY ∧
      (∀ (fid : Nat) (f : Formation), e.formationId = some fid → F.get? fid = some f →
        (0 ≤ toI16 f.centerX + e.offsetX →
          (enemyStep F e).x = i16ToU16 (toI16 f.centerX + e.offsetX)) ∧
        (0 ≤ toI16 f.centerY + e.offsetY →
          (enemyStep F e).y = i16ToU16 (toI16 f.centerY + e.offsetY))) := by
  cases hfe : e.formationId with
  | none =>
    have h1 : enemyStep F e = e.update := by
      unfold enemyStep
      rw [hfe]
    rw [h1]
    have hu := Enemy.update_fields e
    exact ⟨hu.1.trans hfe, hu.2.1, hu.2.2.1, fun fid f hc => by cases hc⟩
  | some fid0 =>
    cases hget : F.get? fid0 with
    | none =>
      have h1 : enemyStep F e = e.update := by
        unfold enemyStep
        rw [hfe]
        show (match F.get? fid0 with
          | some f => e.updateFormationPosition f.centerX f.centerY
          | none => e).update = _
        rw [hget]
      rw [h1]
      have hu := Enemy.update_fields e
      refine ⟨hu.1.trans hfe, hu.2.1, hu.2.2.1, ?_⟩
      intro fid f hc hgf
      injection hc with hc2
      subst hc2
      rw [hget] at hgf
      cases hgf
    | some f0 =>
      have h1 : enemyStep F e = (e.updateFormationPosition f0.centerX f0.centerY).update := by
        unfold enemyStep
        rw [hfe]
        show (match F.get? fid0 with
          | some f => e.updateFormationPosition f.centerX f.centerY
          | none => e).update = _
        rw [hget]
      rw [h1]
      have hupos := Enemy.updateFormationPosition_fields e f0.centerX f0.centerY
      have hupd := Enemy.update_fields (e.updateFormationPosition f0.centerX f0.centerY)
      have hsome : (e.updateFormationPosition f0.centerX f0.centerY).formationId.isSome
          = true := by
        rw [hupos.1, hfe]
        rfl
      refine ⟨hupd.1.trans (hupos.1.trans hfe), hupd.2.1.trans hupos.2.1,
        hupd.2.2.1.trans hupos.2.2.1, ?_⟩
      intro fid f hc hgf
      injection hc with hc2
      subst hc2
      rw [hget] at hgf
      injection hgf with hgf2
      subst hgf2
      constructor
      · intro hx
        rw [(hupd.2.2.2 hsome).1]
        exact hupos.2.2.2.1 hx
      · intro hy
        rw [(hupd.2.2.2 hsome).2]
        exact hupos.2.2.2.2 hy

theorem enemyLoop_mem (o : TickOracle) (F : List Formation) (es : List Enemy) (i : Nat)
    (e : Enemy) (h : e ∈ (enemyLoop o F es i).1) : ∃ e₀ ∈ es, e = enemyStep F e₀ := by
  induction es generalizing i with
  | nil => cases h
  | cons e0 es ih =>
    rw [enemyLoop] at h
    have h2 : e ∈ enemyStep F e0 :: (enemyLoop o F es (i + 1)).1 := by
      revert h
      split <;> exact fun h => h
    rcases List.mem_cons.1 h2 with rfl | hrest
    · exact ⟨e0, List.mem_cons_self e0 es, rfl⟩
    · rcases ih (i + 1) hrest with ⟨e₀, hm, hstep⟩
      exact ⟨e₀, List.mem_cons_of_mem e0 hm, hstep⟩

/-- C2 (amended): after a tick, every surviving enemy whose stored formation
index resolves — at the moment enemy positions are derived — to a formation
`f` of the mid-tick formations list satisfies: its coordinate equals the
`u16` cast of `f.center + offset` whenever that sum is non-negative. (When
the sum is negative the coordinate keeps its previous value rather than
clamping to zero, and when the stored index no longer resolves — e.g.
after formation removals — the position is simply left stale; see the
counterexample for the claim as originally stated.) -/
theorem C2_formation_position (s : AppState) (o : TickOracle) (e : Enemy)
    (he : e ∈ (updateGame o s).enemies) (fid : Nat) (hfid : e.formationId = some fid)
    (f : Formation) (hf : (midFormations o s).get? fid = some f) :
    (0 ≤ toI16 f.centerX + e.offsetX → e.x = i16ToU16 (toI16 f.centerX + e.offsetX)) ∧
      (0 ≤ toI16 f.centerY + e.offsetY → e.y = i16ToU16 (toI16 f.centerY + e.offsetY)) := by
  obtain ⟨e₁, he₁, hpe⟩ := checkCollisions_enemies_from _ e he
  have hlist : (pickupMoveStage (pickupSpawnStage o (formationCullStage (enemyCullStage
      (enemyLoopStage o (formationsStage (particlesStage (projectilesStage
        (spawnPhase o (preTick s)))))))))).enemies
      = (enemyCullStage (enemyLoopStage o (formationsStage (particlesStage (projectilesStage
        (spawnPhase o (preTick s))))))).enemies := by
    calc (pickupMoveStage (pickupSpawnStage o (formationCullStage (enemyCullStage
          (enemyLoopStage o (formationsStage (particlesStage (projectilesStage
            (spawnPhase o (preTick s)))))))))).enemies
        = (pickupSpawnStage o (formationCullStage (enemyCullStage
            (enemyLoopStage o (formationsStage (particlesStage (projectilesStage
              (spawnPhase o (preTick s))))))))).enemies := rfl
      _ = (formationCullStage (enemyCullStage (enemyLoopStage o (formationsStage
            (particlesStage (projectilesStage (spawnPhase o (preTick s)))))))).enemies :=
          pickupSpawnStage_enemies o _
      _ = (enemyCullStage (enemyLoopStage o (formationsStage (particlesStage (projectilesStage
            (spawnPhase o (preTick s))))))).enemies := rfl
  rw [hlist] at he₁
  have he₂ : e₁ ∈ (enemyLoop o (midFormations o s)
      (particlesStage (projectilesStage (spawnPhase o (preTick s)))).enemies 0).1 :=
    List.mem_of_mem_filter he₁
  obtain ⟨e₀, _, rfl⟩ := enemyLoop_mem o _ _ 0 e₁ he₂
  have hspec := enemyStep_spec (midFormations o s) e₀
  have hfid0 : e₀.formationId = some fid := by
    rw [← hspec.1, ← hpe.2.2.1, hfid]
  have hox : e.offsetX = e₀.offsetX := hpe.2.2.2.1.trans hspec.2.1
  have hoy : e.offsetY = e₀.offsetY := hpe.2.2.2.2.trans hspec.2.2.1
  have hmain := hspec.2.2.2 fid f hfid0 hf
  constructor
  · intro hx
    rw [hox] at hx ⊢
    rw [hpe.1]
    exact hmain.1 hx
  · intro hy
    rw [hoy] at hy ⊢
    rw [hpe.2.1]
    exact hmain.2 hy

/-- The C2 counterexample state: an enemy bound to formation 0 at offset
`(-8, 0)`, while the formation center sits at x = 2, so the derived
x-coordinate would be −6. -/
def stateC2 : AppState :=
  ⟨Player.new 40 40,
   [⟨7, 9, 15, .Basic, 1, some 0, -8, 0, 0⟩],
   [⟨2, 5, .VShape, 1, 0, [0]⟩],
   [], [], [], 0, 60, 70, 5, 0, 90⟩

/-- C2 counterexample: after the tick the enemy still referenced formation 0
(center x = 2) at offset −8, yet its x-coordinate is 7 — the stale previous
value — and not the claimed clamped value `max 0 (2 + (-8)) = 0`: when
`center + offset` is negative the coordinate is left unchanged, not
clamped. -/
theorem C2_counterexample :
    (updateGame defaultOracle stateC2).enemies.map (fun e => (e.x, e.formationId, e.offsetX))
        = [(7, some 0, -8)] ∧
      (updateGame defaultOracle stateC2).formations.map Formation.centerX = [2] ∧
      ¬ ((7 : Int) = max 0 (toI16 2 + (-8))) := by decide

/-- The witness state for the amended C2: same setup with offset `(3, 0)`,
whose derived position is non-negative. -/
def stateC2w : AppState :=
  ⟨Player.new 40 40,
   [⟨0, 9, 15, .Basic, 1, some 0, 3, 0, 0⟩],
   [⟨2, 5, .VShape, 1, 0, [0]⟩],
   [], [], [], 0, 60, 70, 5, 0, 90⟩

theorem C2_formation_position_witness :
    (⟨5, 5, 15, .Basic, 2, some 0, 3, 0, 0⟩ : Enemy).x
      = i16ToU16 (toI16 (2 : Nat) + (3 : Int)) :=
  (C2_formation_position stateC2w defaultOracle ⟨5, 5, 15, .Basic, 2, some 0, 3, 0, 0⟩
    (by decide) 0 rfl ⟨2, 5, .VShape, 1, 1, [0]⟩ (by decide)).1 (by decide)

end Galagia
